import Mathlib

/-!
# go-nikeplus: `client.go`

A shallow embedding of the Nike+ client (`src/client.go`) and the properties of
its response decoder, query builder and session manager.

Conventions of the embedding.

* Go `string` and `[]byte` values are texts; a text is a Lean `String`, processed
  as its list of characters. Bodies that are not valid UTF-8 are outside the model.
* A Go function that may abort with a run-time panic returns a `Run`.
* The standard library is the environment: `encoding/json` is modelled by
  `jsonParse` (the grammar its scanner accepts) and by one decoder per destination
  type; `net/url` and `net/http` calls appear as arguments.
-/

namespace NikePlus

/-! ## Go run-time values -/

/-- The outcome of running a Go function: it returns, or it aborts with a
run-time panic (here always a failed type assertion). -/
inductive Run (α : Type) where
  | ret (a : α)
  | panic
  deriving DecidableEq, Repr

/-- Go `error` values. `errorsNew msg` is `errors.New(msg)`, the only error whose
message the program chooses. The others are produced by libraries:
`jsonSyntax` is `*json.SyntaxError`, `jsonType value target` is
`*json.UnmarshalTypeError` ("json: cannot unmarshal `value` into ... `target`"),
`other` is any further error value (transport, URL parsing, decoders of caller
types). -/
inductive GoError where
  | errorsNew (msg : String)
  | jsonSyntax
  | jsonType (value : String) (target : String)
  | other (descr : String)
  deriving DecidableEq, Repr

/-- `bytes.Contains(s, pat)` and `strings.Contains(s, pat)`: `pat` occurs in `s`
as a contiguous block. -/
def bytesContains : List Char → List Char → Bool
  | [], pat => pat.isEmpty
  | c :: cs, pat => pat.isPrefixOf (c :: cs) || bytesContains cs pat

/-! ## `encoding/json`: syntax -/

/-- A JSON value as scanned by `encoding/json`. A number keeps its literal; an
object keeps its members in document order, duplicates included. The same type
stands for the `interface{}` value that a JSON value decodes to (`nil`, `bool`,
`float64` given by its literal, `string`, `[]interface{}`,
`map[string]interface{}`). -/
inductive JValue where
  | null
  | bool (b : Bool)
  | num (lit : String)
  | str (s : String)
  | arr (elems : List JValue)
  | obj (members : List (String × JValue))
  deriving Repr

/-- The four JSON white-space characters. -/
def isSpace (c : Char) : Bool :=
  c = ' ' || c = '\t' || c = '\r' || c = '\n'

/-- Drop leading white space. -/
def skipSpace : List Char → List Char
  | [] => []
  | c :: cs => if isSpace c then skipSpace cs else c :: cs

/-- Value of a hexadecimal digit. -/
def hexVal (c : Char) : Option Nat :=
  if '0' ≤ c ∧ c ≤ '9' then some (c.toNat - '0'.toNat)
  else if 'a' ≤ c ∧ c ≤ 'f' then some (c.toNat - 'a'.toNat + 10)
  else if 'A' ≤ c ∧ c ≤ 'F' then some (c.toNat - 'A'.toNat + 10)
  else none

/-- Four hexadecimal digits at the head of the input: their value and the input
after them. -/
def hex4 : List Char → Option (Nat × List Char)
  | a :: b :: c :: d :: r =>
    match hexVal a, hexVal b, hexVal c, hexVal d with
    | some x, some y, some z, some w => some (((x * 16 + y) * 16 + z) * 16 + w, r)
    | _, _, _, _ => none
  | _ => none

/-- `getu4`: the code unit of a `\uXXXX` escape at the head of the input, and the
input after the escape. -/
def getu4 : List Char → Option (Nat × List Char)
  | '\\' :: 'u' :: r => hex4 r
  | _ => none

/-- One escape sequence, read after its backslash: the character it stands for
and the input after it. A surrogate `\u` escape that is not the first half of a
valid pair stands for U+FFFD, and what follows it is read on its own. -/
def scanEscape : List Char → Option (Char × List Char)
  | [] => none
  | e :: rest =>
    if e = '"' ∨ e = '\\' ∨ e = '/' then some (e, rest)
    else if e = 'b' then some (Char.ofNat 8, rest)
    else if e = 'f' then some (Char.ofNat 12, rest)
    else if e = 'n' then some ('\n', rest)
    else if e = 'r' then some ('\r', rest)
    else if e = 't' then some ('\t', rest)
    else if e = 'u' then
      match hex4 rest with
      | none => none
      | some (hi, r4) =>
        if 0xD800 ≤ hi ∧ hi < 0xE000 then
          match getu4 r4 with
          | some (lo, r6) =>
            if hi < 0xDC00 ∧ 0xDC00 ≤ lo ∧ lo < 0xE000 then
              some (Char.ofNat (0x10000 + (hi - 0xD800) * 0x400 + (lo - 0xDC00)), r6)
            else some (Char.ofNat 0xFFFD, r4)
          | none => some (Char.ofNat 0xFFFD, r4)
        else some (Char.ofNat hi, r4)
    else none

/-- The body of a string literal after its opening quote: the unquoted text and
the input left after the closing quote. Control characters and unknown escapes
are syntax errors. The fuel bounds the number of characters read. -/
def scanString : Nat → List Char → List Char → Option (String × List Char)
  | 0, _, _ => none
  | _ + 1, _, [] => none
  | fuel + 1, acc, c :: cs =>
    if c = '"' then some (String.mk acc.reverse, cs)
    else if c.toNat < 0x20 then none
    else if c = '\\' then
      match scanEscape cs with
      | none => none
      | some (ch, rest) => scanString fuel (ch :: acc) rest
    else scanString fuel (c :: acc) cs

/-- Split off the longest prefix of decimal digits. -/
def spanDigits : List Char → List Char × List Char
  | [] => ([], [])
  | c :: cs =>
    if c.isDigit then
      let r := spanDigits cs
      (c :: r.1, r.2)
    else ([], c :: cs)

/-- The integer part of a number: `0`, or a non-empty run of digits. -/
def scanInt : List Char → Option (List Char × List Char)
  | '0' :: r => some (['0'], r)
  | r =>
    let p := spanDigits r
    if p.1.isEmpty then none else some p

/-- The optional fraction of a number: `.` and a non-empty run of digits. -/
def scanFrac : List Char → Option (List Char × List Char)
  | '.' :: r =>
    let p := spanDigits r
    if p.1.isEmpty then none else some ('.' :: p.1, p.2)
  | r => some ([], r)

/-- The optional sign of an exponent. -/
def scanExpSign : List Char → List Char × List Char
  | '+' :: t => (['+'], t)
  | '-' :: t => (['-'], t)
  | t => ([], t)

/-- The optional exponent of a number: `e` or `E`, an optional sign and a
non-empty run of digits. -/
def scanExp : List Char → Option (List Char × List Char)
  | [] => some ([], [])
  | e :: r =>
    if e = 'e' ∨ e = 'E' then
      let sg := scanExpSign r
      let p := spanDigits sg.2
      if p.1.isEmpty then none else some (e :: sg.1 ++ p.1, p.2)
    else some ([], e :: r)

/-- The optional minus sign of a number. -/
def scanMinus : List Char → List Char × List Char
  | '-' :: r => (['-'], r)
  | r => ([], r)

/-- A number literal at the head of the input:
`-? (0 | [1-9][0-9]*) (. [0-9]+)? ([eE] [+-]? [0-9]+)?`. -/
def scanNumber (cs : List Char) : Option (String × List Char) :=
  let sg := scanMinus cs
  match scanInt sg.2 with
  | none => none
  | some ip =>
    match scanFrac ip.2 with
    | none => none
    | some fp =>
      match scanExp fp.2 with
      | none => none
      | some ep => some (String.mk (sg.1 ++ ip.1 ++ fp.1 ++ ep.1), ep.2)

/-- A value that is not an object or an array, with first character `c`: a
string, `true`, `false`, `null` or a number. -/
def scanScalar (c : Char) (rest : List Char) : Option (JValue × List Char) :=
  if c = '"' then
    (scanString (rest.length + 1) [] rest).map fun p => (JValue.str p.1, p.2)
  else if c = 't' then
    if ['r', 'u', 'e'].isPrefixOf rest then some (JValue.bool true, rest.drop 3) else none
  else if c = 'f' then
    if ['a', 'l', 's', 'e'].isPrefixOf rest then some (JValue.bool false, rest.drop 4) else none
  else if c = 'n' then
    if ['u', 'l', 'l'].isPrefixOf rest then some (JValue.null, rest.drop 3) else none
  else (scanNumber (c :: rest)).map fun p => (JValue.num p.1, p.2)

/-- The nesting depth beyond which the scanner reports "exceeded max depth". -/
def maxNestingDepth : Nat := 10000

mutual
/-- One JSON value at the head of the input (leading white space skipped), at
the given nesting depth. The fuel bounds the recursion; see `jsonParse`. -/
def scanValue : Nat → Nat → List Char → Option (JValue × List Char)
  | 0, _, _ => none
  | fuel + 1, depth, cs =>
    match skipSpace cs with
    | [] => none
    | c :: rest =>
      if c = '{' then
        if depth + 1 > maxNestingDepth then none
        else if (skipSpace rest).head? = some '}' then
          some (JValue.obj [], (skipSpace rest).tail)
        else
          (scanMembers fuel (depth + 1) (skipSpace rest)).map fun p => (JValue.obj p.1, p.2)
      else if c = '[' then
        if depth + 1 > maxNestingDepth then none
        else if (skipSpace rest).head? = some ']' then
          some (JValue.arr [], (skipSpace rest).tail)
        else
          (scanElems fuel (depth + 1) (skipSpace rest)).map fun p => (JValue.arr p.1, p.2)
      else scanScalar c rest
/-- The elements of a non-empty array, up to and including the closing bracket. -/
def scanElems : Nat → Nat → List Char → Option (List JValue × List Char)
  | 0, _, _ => none
  | fuel + 1, depth, cs =>
    match scanValue fuel depth cs with
    | none => none
    | some (v, r) =>
      match skipSpace r with
      | [] => none
      | c :: r' =>
        if c = ',' then (scanElems fuel depth r').map fun p => (v :: p.1, p.2)
        else if c = ']' then some ([v], r')
        else none
/-- The members of a non-empty object, up to and including the closing brace. -/
def scanMembers : Nat → Nat → List Char → Option (List (String × JValue) × List Char)
  | 0, _, _ => none
  | fuel + 1, depth, cs =>
    match skipSpace cs with
    | [] => none
    | q :: r =>
      if q = '"' then
        match scanString (r.length + 1) [] r with
        | none => none
        | some (k, r1) =>
          match skipSpace r1 with
          | [] => none
          | colon :: r2 =>
            if colon = ':' then
              match scanValue fuel depth r2 with
              | none => none
              | some (v, r3) =>
                match skipSpace r3 with
                | [] => none
                | c :: r4 =>
                  if c = ',' then
                    (scanMembers fuel depth r4).map fun p => ((k, v) :: p.1, p.2)
                  else if c = '}' then some ([(k, v)], r4)
                  else none
            else none
      else none
end

/-- The scanner of `encoding/json` run over a whole body (`checkValid` followed by
the scan that drives decoding): the value of a body that is one JSON value
between optional white space, `none` on a syntax error. The fuel, twice the
length of the body plus two, is enough for every body
(`jsonParse_of_scanValue`). -/
def jsonParse (body : String) : Option JValue :=
  match scanValue (2 * body.data.length + 2) 0 body.data with
  | none => none
  | some (v, r) => if (skipSpace r).isEmpty then some v else none

/-! ## `encoding/json`: decoding into the destination types of `client.go` -/

/-- The name `encoding/json` gives to the kind of a JSON value in an
`UnmarshalTypeError`. -/
def JValue.kind : JValue → String
  | .null => "null"
  | .bool _ => "bool"
  | .num _ => "number"
  | .str _ => "string"
  | .arr _ => "array"
  | .obj _ => "object"

/-- The decoder keeps the first error it meets and goes on (`saveError`). -/
def saveError (saved : Option GoError) (e : GoError) : Option GoError :=
  match saved with
  | none => some e
  | some s => some s

/-- Value of a run of decimal digits. -/
def digitsVal (ds : List Char) : Nat :=
  ds.foldl (fun n c => n * 10 + (c.toNat - '0'.toNat)) 0

/-- The decimal exponent as `strconv` reads it: digits are accumulated only while
the value is below 10000. -/
def clampedExp (ds : List Char) : Nat :=
  ds.foldl (fun e c => if e < 10000 then e * 10 + (c.toNat - '0'.toNat) else e) 0

/-- The least magnitude that rounds to an infinite `float64`, `2^1024 - 2^970`
(half an ulp above the largest finite value). -/
def float64Bound : Nat :=
  179769313486231580793728971405303415079934132710037826936173778980444968292764750946649017977587207096330286416692887910946555547851940402630657488671505820681908902000708383676273854845817711531764475730270069855571366959622842914819860834936475292719074168444365510704342711559699508093042880177904174497792

/-- Whether `strconv.ParseFloat(lit, 64)` reports a range error: the literal,
rounded to nearest-even, is not a finite `float64`, that is its magnitude is at
least `2^1024 - 2^970`. Stated over the naturals, without floating point. -/
def float64Overflows (lit : String) : Bool :=
  let cs : List Char :=
    match lit.data with
    | '-' :: r => r
    | r => r
  let ip := spanDigits cs
  let fp : List Char × List Char :=
    match ip.2 with
    | '.' :: r => spanDigits r
    | r => ([], r)
  let ex : Bool × Nat :=
    match fp.2 with
    | _ :: '-' :: r => (true, clampedExp r)
    | _ :: '+' :: r => (false, clampedExp r)
    | _ :: r => (false, clampedExp r)
    | [] => (false, 0)
  let m := digitsVal (ip.1 ++ fp.1)
  let bound := float64Bound
  if ex.1 then decide (bound * 10 ^ (ex.2 + fp.1.length) ≤ m)
  else if fp.1.length ≤ ex.2 then decide (bound ≤ m * 10 ^ (ex.2 - fp.1.length))
  else decide (bound * 10 ^ (fp.1.length - ex.2) ≤ m)

mutual
/-- The first number literal, in document order, that does not fit a `float64`. -/
def JValue.badNumber : JValue → Option String
  | .num lit => if float64Overflows lit then some lit else none
  | .arr es => badNumberElems es
  | .obj ms => badNumberMembers ms
  | _ => none
/-- First unrepresentable number among array elements. -/
def badNumberElems : List JValue → Option String
  | [] => none
  | v :: vs =>
    match v.badNumber with
    | some lit => some lit
    | none => badNumberElems vs
/-- First unrepresentable number among object members. -/
def badNumberMembers : List (String × JValue) → Option String
  | [] => none
  | (_, v) :: ms =>
    match v.badNumber with
    | some lit => some lit
    | none => badNumberMembers ms
end

/-- A Go `map[string]β`: a finite partial function on keys. The nil map and the
empty map read the same. -/
def GoMap (β : Type) : Type := String → Option β

/-- The map with no entry. -/
def GoMap.empty {β : Type} : GoMap β := fun _ => none

/-- Map assignment `m[k] = v`. -/
def GoMap.set {β : Type} (m : GoMap β) (k : String) (v : β) : GoMap β :=
  fun k' => if k' = k then some v else m k'

/-- The struct `ErrorResult` (client.go, lines 32-36). -/
structure ErrorResult where
  Result : String
  ErrorCode : String
  ErrorMessage : String
  deriving DecidableEq, Repr

/-- The fields of `ErrorResult`. -/
inductive ErrorResultField where
  | Result
  | ErrorCode
  | ErrorMessage
  deriving DecidableEq, Repr

/-- The `json:"..."` tag of a field. -/
def ErrorResultField.tag : ErrorResultField → String
  | .Result => "result"
  | .ErrorCode => "errorCode"
  | .ErrorMessage => "errorMessage"

/-- Assign a string to a field. -/
def ErrorResult.setField (r : ErrorResult) (f : ErrorResultField) (s : String) : ErrorResult :=
  match f with
  | .Result => { r with Result := s }
  | .ErrorCode => { r with ErrorCode := s }
  | .ErrorMessage => { r with ErrorMessage := s }

/-- Canonical representative of a rune for simple case folding, exact on every
rune whose folding class contains an ASCII letter (the letters, U+017F for `s`
and U+212A for `k`). -/
def foldRune (c : Char) : Char :=
  if 'a' ≤ c ∧ c ≤ 'z' then Char.ofNat (c.toNat - 32)
  else if c = Char.ofNat 0x17F then 'S'
  else if c = Char.ofNat 0x212A then 'K'
  else c

/-- Case-insensitive comparison of an ASCII field name with an object key. -/
def equalFold (name key : String) : Bool :=
  name.data.map foldRune = key.data.map foldRune

/-- The field an object key is stored in: the field with exactly that name,
otherwise the first field whose name matches case-insensitively. -/
def fieldFor (key : String) : Option ErrorResultField :=
  let fields := [ErrorResultField.Result, ErrorResultField.ErrorCode, ErrorResultField.ErrorMessage]
  match fields.find? (fun f => f.tag = key) with
  | some f => some f
  | none => fields.find? (fun f => equalFold f.tag key)

/-- Store one JSON value in a `string` field: a string is assigned, `null` is
ignored, anything else is a type error and leaves the field alone. -/
def storeField (f : ErrorResultField) (v : JValue) (st : ErrorResult × Option GoError) :
    ErrorResult × Option GoError :=
  match v with
  | .str s => (st.1.setField f s, st.2)
  | .null => st
  | w => (st.1, saveError st.2 (GoError.jsonType w.kind ("ErrorResult." ++ f.tag)))

/-- One object member decoded into an `ErrorResult`; unknown keys are skipped. -/
def storeMember (st : ErrorResult × Option GoError) (kv : String × JValue) :
    ErrorResult × Option GoError :=
  match fieldFor kv.1 with
  | some f => storeField f kv.2 st
  | none => st

/-- Decoding of a valid JSON value into a `*ErrorResult`. -/
def decodeErrorResult (v : JValue) (r : ErrorResult) : ErrorResult × Option GoError :=
  match v with
  | .obj members => members.foldl storeMember (r, none)
  | .null => (r, none)
  | w => (r, some (GoError.jsonType w.kind "ErrorResult"))

/-- One object member decoded into a `map[string]interface{}`: the entry is
assigned (a number that does not fit a `float64` leaves `nil` there and is a
type error). -/
def storeEntry (st : GoMap JValue × Option GoError) (kv : String × JValue) :
    GoMap JValue × Option GoError :=
  match kv.2.badNumber with
  | none => (st.1.set kv.1 kv.2, st.2)
  | some lit =>
    (st.1.set kv.1 (match kv.2 with
        | .num _ => JValue.null
        | w => w),
      saveError st.2 (GoError.jsonType ("number " ++ lit) "float64"))

/-- Decoding of a valid JSON value into a `*map[string]interface{}`. -/
def decodeMap (v : JValue) (m : GoMap JValue) : GoMap JValue × Option GoError :=
  match v with
  | .obj members => members.foldl storeEntry (m, none)
  | .null => (GoMap.empty, none)
  | w => (m, some (GoError.jsonType w.kind "map[string]interface {}"))

/-- `json.Unmarshal(body, &dst)`: the body is checked for syntax first, and only a
valid body is decoded; `decode` is the decoder for the Go type of the
destination, which returns the destination as it leaves it. -/
def Unmarshal {D : Type} (decode : JValue → D → D × Option GoError) (body : String) (dst : D) :
    D × Option GoError :=
  match jsonParse body with
  | none => (dst, some GoError.jsonSyntax)
  | some v => decode v dst

/-! ## `client.go` -/

/-- The part of `url.URL` that the client reads. -/
structure URL where
  Scheme : String
  Host : String
  Path : String
  RawQuery : String
  deriving DecidableEq, Repr

/-- An `*http.Response` as the client uses it: what `ioutil.ReadAll(resp.Body)`
yields, and `resp.Request.URL`. -/
structure Response where
  Body : Except GoError String
  RequestURL : Option URL

/-- A response with the given body. -/
def Response.ofBody (body : String) : Response :=
  { Body := Except.ok body, RequestURL := none }

/-- `parseJsonResponse` (client.go, lines 41-63). Returns the error result (or the
panic) together with the destination `result` as the call leaves it. -/
def parseJsonResponse {D : Type} (decode : JValue → D → D × Option GoError)
    (resp : Response) (result : D) : Run (Option GoError) × D :=
  match resp.Body with
  | .error err => (Run.ret (some err), result)
  | .ok body =>
    if bytesContains body.data "errorCode".data then
      let r := Unmarshal decodeErrorResult body
        { Result := "", ErrorCode := "", ErrorMessage := "" }
      match r.2 with
      | some err => (Run.ret (some err), result)
      | none => (Run.ret (some (GoError.errorsNew r.1.ErrorMessage)), result)
    else if bytesContains body.data "\"error\"".data then
      let r := Unmarshal decodeMap body GoMap.empty
      match r.2 with
      | some err => (Run.ret (some err), result)
      | none =>
        match r.1 "error" with
        | some val =>
          match val with
          | .str s => (Run.ret (some (GoError.errorsNew s)), result)
          | _ => (Run.panic, result)
        | none =>
          (Run.ret (some (GoError.errorsNew ("Unknown error response: " ++ body))), result)
    else
      let r := Unmarshal decode body result
      (Run.ret r.2, r.1)

/-- The state of a `Client` that the methods read and write. The cookie jar and
the embedded `*http.Client` are the environment: what a request returns is an
argument of the method that issues it. -/
structure Client where
  AccessToken : String
  deriving DecidableEq, Repr

/-- `Client.Login` (client.go, lines 74-99). `post` is what `self.Post(...)`
returns; `reparse u` is `url.Parse(u.String())`, the round trip the method makes
through the text of the final URL. The trailing `if err != nil` re-tests the
error of `Post`, which is nil there. -/
def Login (reparse : URL → Except GoError URL) (post : Except GoError Response) :
    Option GoError :=
  match post with
  | .error err => some err
  | .ok resp =>
    match resp.RequestURL with
    | some u =>
      match reparse u with
      | .error err => some err
      | .ok url =>
        if bytesContains url.RawQuery.data "error=".data then
          some (GoError.errorsNew ("Login return: " ++ url.RawQuery))
        else none
    | none => none

/-- `Client.AskAccessToken` (client.go, lines 101-117). `doResult` is what
`self.Do(req)` returns. The result is the returned pair (or the panic) and the
client after the call. -/
def AskAccessToken (self : Client) (doResult : Except GoError Response) :
    Run (String × Option GoError) × Client :=
  match doResult with
  | .error err => (Run.ret ("", some err), self)
  | .ok resp =>
    let r := parseJsonResponse decodeMap resp GoMap.empty
    match r.1 with
    | .panic => (Run.panic, self)
    | .ret (some err) => (Run.ret ("", some err), self)
    | .ret none =>
      match r.2 "auth_token" with
      | some (.str val) => (Run.ret (val, none), { self with AccessToken := val })
      | _ => (Run.ret ("", some (GoError.errorsNew "Can't get access token")), self)

/-- The dynamic value of an `interface{}` entry of `Params`. A `[]byte` is given
by the text having those bytes; `other` is a value of any further dynamic type
(the nil interface included), named by its type. -/
inductive GoValue where
  | int (n : Int)
  | int8 (n : Int)
  | int16 (n : Int)
  | int32 (n : Int)
  | int64 (n : Int)
  | string (s : String)
  | bytes (b : String)
  | other (typeName : String)
  deriving DecidableEq, Repr

/-- The type assertion `t.(int)`: succeeds only on dynamic type `int`. -/
def GoValue.assertInt : GoValue → Option Int
  | .int n => some n
  | _ => none

/-- The type assertion `t.(string)`: succeeds only on dynamic type `string`. -/
def GoValue.assertString : GoValue → Option String
  | .string s => some s
  | _ => none

/-- `strconv.Itoa`: base-10 text of an integer. -/
def Itoa (n : Int) : String :=
  if n < 0 then "-" ++ Nat.repr n.natAbs else Nat.repr n.toNat

/-- `type Params map[string]interface{}`, listed in the order in which `range`
visits it; as a map, its keys are pairwise distinct. -/
abbrev Params : Type := List (String × GoValue)

/-- `url.Values`, a `map[string][]string`. -/
abbrev Values : Type := GoMap (List String)

/-- `url.Values.Set`: the key gets the one value. -/
def Values.Set (v : Values) (key value : String) : Values :=
  GoMap.set v key [value]

/-- The `for key, val := range *userParams` loop of `GetRequestParams` with its
type switch. -/
def rangeParams : Params → Values → Run Values
  | [], params => Run.ret params
  | (key, val) :: rest, params =>
    match val with
    | .int _ | .int8 _ | .int16 _ | .int32 _ | .int64 _ =>
      match val.assertInt with
      | some n => rangeParams rest (Values.Set params key (Itoa n))
      | none => Run.panic
    | .string t => rangeParams rest (Values.Set params key t)
    | .bytes t => rangeParams rest (Values.Set params key t)
    | .other _ =>
      match val.assertString with
      | some t => rangeParams rest (Values.Set params key t)
      | none => Run.panic

/-- `Client.GetRequestParams` (client.go, lines 140-157); `none` is the nil
pointer. -/
def GetRequestParams (self : Client) (userParams : Option Params) : Run Values :=
  let params : Values := GoMap.set GoMap.empty "access_token" [self.AccessToken]
  match userParams with
  | some bag => rangeParams bag params
  | none => Run.ret params

/-! ## Reading a decoded object

What the decoders leave, said directly on the members of the object. -/

/-- The string of the last member of an object that is stored in field `f` (its
key names `f`, exactly or ignoring case) and holds a string. -/
def lastStringFor (f : ErrorResultField) : List (String × JValue) → Option String
  | [] => none
  | (k, v) :: ms =>
    match lastStringFor f ms with
    | some s => some s
    | none =>
      match v with
      | .str s => if fieldFor k = some f then some s else none
      | _ => none

/-- The value of the last member of an object with the given key: the entry a Go
map holds for that key after the object is decoded into it. -/
def lastEntry (key : String) : List (String × JValue) → Option JValue
  | [] => none
  | (k, v) :: ms =>
    match lastEntry key ms with
    | some w => some w
    | none => if k = key then some v else none

/-- The text a supported `Params` value is sent as: decimal text for an `int`,
the string itself, the text of the bytes. -/
def GoValue.render : GoValue → String
  | .int n => Itoa n
  | .string s => s
  | .bytes b => b
  | _ => ""

/-- The dynamic type is one of `int`, `string`, `[]byte`. -/
def GoValue.isIntStringBytes : GoValue → Bool
  | .int _ => true
  | .string _ => true
  | .bytes _ => true
  | _ => false

/-! ## The scanner does not depend on its fuel -/

/-- Skipping white space does not lengthen the input. -/
theorem skipSpace_length_le (cs : List Char) : (skipSpace cs).length ≤ cs.length := by
  induction cs with
  | nil => simp [skipSpace]
  | cons c cs ih =>
    simp only [skipSpace]
    by_cases hc : isSpace c = true
    · rw [if_pos hc]; exact Nat.le_succ_of_le ih
    · rw [if_neg hc]

/-- What is left after a run of digits is no longer than the input. -/
theorem spanDigits_length_le (cs : List Char) : (spanDigits cs).2.length ≤ cs.length := by
  induction cs with
  | nil => simp [spanDigits]
  | cons c cs ih =>
    simp only [spanDigits]
    by_cases hc : c.isDigit = true
    · rw [if_pos hc]; exact Nat.le_succ_of_le ih
    · rw [if_neg hc]

/-- Four hexadecimal digits consume input. -/
theorem hex4_length_le (cs : List Char) (n : Nat) (r : List Char)
    (h : hex4 cs = some (n, r)) : r.length ≤ cs.length := by
  unfold hex4 at h
  split at h
  · split at h
    · simp only [Option.some.injEq, Prod.mk.injEq] at h
      rw [← h.2]
      simp only [List.length_cons]
      omega
    · cases h
  · cases h

/-- A `\u` escape consumes input. -/
theorem getu4_length_le (cs : List Char) (n : Nat) (r : List Char)
    (h : getu4 cs = some (n, r)) : r.length ≤ cs.length := by
  unfold getu4 at h
  split at h
  · have := hex4_length_le _ n r h
    simp only [List.length_cons]
    omega
  · cases h

/-- An escape sequence consumes input. -/
theorem scanEscape_length_le (cs : List Char) (ch : Char) (r : List Char)
    (h : scanEscape cs = some (ch, r)) : r.length ≤ cs.length := by
  cases cs with
  | nil => simp [scanEscape] at h
  | cons e rest =>
    simp only [scanEscape] at h
    split_ifs at h
    any_goals
      simp only [Option.some.injEq, Prod.mk.injEq] at h
      rw [← h.2]
      simp
    cases h4 : hex4 rest with
    | none => rw [h4] at h; cases h
    | some p =>
      obtain ⟨hi, r4⟩ := p
      rw [h4] at h
      have hr4 := hex4_length_le rest hi r4 h4
      simp only at h
      split_ifs at h
      · cases h6 : getu4 r4 with
        | none =>
          rw [h6] at h
          simp only [Option.some.injEq, Prod.mk.injEq] at h
          rw [← h.2]; simp only [List.length_cons]; omega
        | some q =>
          obtain ⟨lo, r6⟩ := q
          rw [h6] at h
          have hr6 := getu4_length_le r4 lo r6 h6
          simp only at h
          split_ifs at h <;>
            (simp only [Option.some.injEq, Prod.mk.injEq] at h
             rw [← h.2]; simp only [List.length_cons]; omega)
      · simp only [Option.some.injEq, Prod.mk.injEq] at h
        rw [← h.2]; simp only [List.length_cons]; omega

/-- A string literal consumes input. -/
theorem scanString_length_le (fuel : Nat) (acc cs : List Char) (s : String) (rest : List Char)
    (h : scanString fuel acc cs = some (s, rest)) : rest.length ≤ cs.length := by
  induction fuel generalizing acc cs with
  | zero => simp [scanString] at h
  | succ fuel ih =>
    cases cs with
    | nil => simp [scanString] at h
    | cons c cs =>
      simp only [scanString] at h
      split_ifs at h
      · simp only [Option.some.injEq, Prod.mk.injEq] at h
        rw [← h.2]; simp
      · cases he : scanEscape cs with
        | none => rw [he] at h; cases h
        | some p =>
          obtain ⟨ch, r⟩ := p
          rw [he] at h
          have h1 := scanEscape_length_le cs ch r he
          have h2 := ih _ _ h
          simp only [List.length_cons]; omega
      · have h2 := ih _ _ h
        simp only [List.length_cons]; omega

/-- A number literal consumes input. -/
theorem scanNumber_length_le (cs : List Char) (s : String) (rest : List Char)
    (h : scanNumber cs = some (s, rest)) : rest.length ≤ cs.length := by
  have hminus : (scanMinus cs).2.length ≤ cs.length := by
    unfold scanMinus; split <;> simp
  have hint : ∀ r p, scanInt r = some p → p.2.length ≤ r.length := by
    intro r p hp
    unfold scanInt at hp
    split at hp
    · simp only [Option.some.injEq] at hp; rw [← hp]; simp
    · simp only at hp
      split_ifs at hp
      simp only [Option.some.injEq] at hp; rw [← hp]; exact spanDigits_length_le _
  have hfrac : ∀ r p, scanFrac r = some p → p.2.length ≤ r.length := by
    intro r p hp
    unfold scanFrac at hp
    split at hp
    · simp only at hp
      split_ifs at hp
      simp only [Option.some.injEq] at hp; rw [← hp]
      have := spanDigits_length_le ‹List Char›
      simp only [List.length_cons]; omega
    · simp only [Option.some.injEq] at hp; rw [← hp]
  have hsign : ∀ r, (scanExpSign r).2.length ≤ r.length := by
    intro r; unfold scanExpSign; split <;> simp
  have hexp : ∀ r p, scanExp r = some p → p.2.length ≤ r.length := by
    intro r p hp
    unfold scanExp at hp
    split at hp
    · simp only [Option.some.injEq] at hp; rw [← hp]
    · simp only at hp
      split_ifs at hp
      · simp only [Option.some.injEq] at hp; rw [← hp]
        have h1 := spanDigits_length_le (scanExpSign ‹List Char›).2
        have h2 := hsign ‹List Char›
        simp only [List.length_cons]; omega
      · simp only [Option.some.injEq] at hp; rw [← hp]
  simp only [scanNumber] at h
  cases hi : scanInt (scanMinus cs).2 with
  | none => rw [hi] at h; cases h
  | some ip =>
    rw [hi] at h
    simp only at h
    cases hf : scanFrac ip.2 with
    | none => rw [hf] at h; cases h
    | some fp =>
      rw [hf] at h
      simp only at h
      cases he : scanExp fp.2 with
      | none => rw [he] at h; cases h
      | some ep =>
        rw [he] at h
        simp only [Option.some.injEq, Prod.mk.injEq] at h
        rw [← h.2]
        have := hint _ _ hi
        have := hfrac _ _ hf
        have := hexp _ _ he
        omega

/-- A scalar consumes input. -/
theorem scanScalar_length_le (c : Char) (rest : List Char) (v : JValue) (r : List Char)
    (h : scanScalar c rest = some (v, r)) : r.length ≤ rest.length + 1 := by
  unfold scanScalar at h
  split_ifs at h
  · cases hs : scanString (rest.length + 1) [] rest with
    | none => rw [hs] at h; cases h
    | some p =>
      rw [hs] at h
      simp only [Option.map_some', Option.some.injEq, Prod.mk.injEq] at h
      rw [← h.2]
      have := scanString_length_le _ _ _ p.1 p.2 hs
      omega
  any_goals
    simp only [Option.some.injEq, Prod.mk.injEq] at h
    rw [← h.2]
    simp only [List.length_drop]
    omega
  · cases hs : scanNumber (c :: rest) with
    | none => rw [hs] at h; cases h
    | some p =>
      rw [hs] at h
      simp only [Option.map_some', Option.some.injEq, Prod.mk.injEq] at h
      rw [← h.2]
      have := scanNumber_length_le _ p.1 p.2 hs
      simpa using this

/-- The tail of a list whose head is known is shorter by one. -/
theorem length_tail_of_head (l : List Char) (c : Char) (h : l.head? = some c) :
    l.tail.length + 1 = l.length := by
  cases l with
  | nil => cases h
  | cons a t => simp

/-- Fuel adequacy of the three scanners. A successful scan consumes input, and it
is reproduced by every fuel that is at least twice the number of characters
consumed (plus one for a value). -/
theorem scan_adequate (f : Nat) :
    (∀ d cs v rest, scanValue f d cs = some (v, rest) →
      rest.length ≤ cs.length ∧
      ∀ g, 2 * cs.length + 1 ≤ g + 2 * rest.length → scanValue g d cs = some (v, rest)) ∧
    (∀ d cs vs rest, scanElems f d cs = some (vs, rest) →
      rest.length < cs.length ∧
      ∀ g, 2 * cs.length ≤ g + 2 * rest.length → scanElems g d cs = some (vs, rest)) ∧
    (∀ d cs ms rest, scanMembers f d cs = some (ms, rest) →
      rest.length < cs.length ∧
      ∀ g, 2 * cs.length ≤ g + 2 * rest.length → scanMembers g d cs = some (ms, rest)) := by
  induction f with
  | zero =>
    refine ⟨?_, ?_, ?_⟩ <;> intro d cs v rest h
    · simp [scanValue] at h
    · simp [scanElems] at h
    · simp [scanMembers] at h
  | succ f ih =>
    obtain ⟨ihV, ihE, ihM⟩ := ih
    refine ⟨?_, ?_, ?_⟩
    · intro d cs v rest h
      simp only [scanValue] at h
      have hsk := skipSpace_length_le cs
      cases hcs : skipSpace cs with
      | nil => rw [hcs] at h; cases h
      | cons c rest0 =>
        rw [hcs] at h hsk
        simp only [List.length_cons] at h hsk
        have hsk0 := skipSpace_length_le rest0
        by_cases hobj : c = '{'
        · rw [if_pos hobj] at h
          by_cases hdep : d + 1 > maxNestingDepth
          · rw [if_pos hdep] at h; cases h
          · rw [if_neg hdep] at h
            by_cases hclose : (skipSpace rest0).head? = some '}'
            · rw [if_pos hclose] at h
              simp only [Option.some.injEq, Prod.mk.injEq] at h
              obtain ⟨rfl, rfl⟩ := h
              have ht := length_tail_of_head _ _ hclose
              refine ⟨by omega, fun g hg => ?_⟩
              obtain ⟨g, rfl⟩ : ∃ k, g = k + 1 := ⟨g - 1, by omega⟩
              simp only [scanValue, hcs, if_pos hobj, if_neg hdep, if_pos hclose]
            · rw [if_neg hclose] at h
              cases hm : scanMembers f (d + 1) (skipSpace rest0) with
              | none => rw [hm] at h; cases h
              | some p =>
                obtain ⟨ms, r⟩ := p
                rw [hm] at h
                simp only [Option.map_some', Option.some.injEq, Prod.mk.injEq] at h
                obtain ⟨rfl, rfl⟩ := h
                obtain ⟨hlen, hfuel⟩ := ihM _ _ _ _ hm
                refine ⟨by omega, fun g hg => ?_⟩
                obtain ⟨g, rfl⟩ : ∃ k, g = k + 1 := ⟨g - 1, by omega⟩
                simp only [scanValue, hcs, if_pos hobj, if_neg hdep, if_neg hclose,
                  hfuel g (by omega), Option.map_some']
        · rw [if_neg hobj] at h
          by_cases harr : c = '['
          · rw [if_pos harr] at h
            by_cases hdep : d + 1 > maxNestingDepth
            · rw [if_pos hdep] at h; cases h
            · rw [if_neg hdep] at h
              by_cases hclose : (skipSpace rest0).head? = some ']'
              · rw [if_pos hclose] at h
                simp only [Option.some.injEq, Prod.mk.injEq] at h
                obtain ⟨rfl, rfl⟩ := h
                have ht := length_tail_of_head _ _ hclose
                refine ⟨by omega, fun g hg => ?_⟩
                obtain ⟨g, rfl⟩ : ∃ k, g = k + 1 := ⟨g - 1, by omega⟩
                simp only [scanValue, hcs, if_neg hobj, if_pos harr, if_neg hdep, if_pos hclose]
              · rw [if_neg hclose] at h
                cases hm : scanElems f (d + 1) (skipSpace rest0) with
                | none => rw [hm] at h; cases h
                | some p =>
                  obtain ⟨ms, r⟩ := p
                  rw [hm] at h
                  simp only [Option.map_some', Option.some.injEq, Prod.mk.injEq] at h
                  obtain ⟨rfl, rfl⟩ := h
                  obtain ⟨hlen, hfuel⟩ := ihE _ _ _ _ hm
                  refine ⟨by omega, fun g hg => ?_⟩
                  obtain ⟨g, rfl⟩ : ∃ k, g = k + 1 := ⟨g - 1, by omega⟩
                  simp only [scanValue, hcs, if_neg hobj, if_pos harr, if_neg hdep,
                    if_neg hclose, hfuel g (by omega), Option.map_some']
          · rw [if_neg harr] at h
            have hlen := scanScalar_length_le c rest0 v rest h
            refine ⟨by omega, fun g hg => ?_⟩
            obtain ⟨g, rfl⟩ : ∃ k, g = k + 1 := ⟨g - 1, by omega⟩
            simp only [scanValue, hcs, if_neg hobj, if_neg harr, h]
    · intro d cs vs rest h
      simp only [scanElems] at h
      cases hv : scanValue f d cs with
      | none => rw [hv] at h; cases h
      | some p =>
        obtain ⟨v, r⟩ := p
        rw [hv] at h
        simp only at h
        obtain ⟨hlenV, hfuelV⟩ := ihV _ _ _ _ hv
        have hsk := skipSpace_length_le r
        cases hcs : skipSpace r with
        | nil => rw [hcs] at h; cases h
        | cons c r1 =>
          rw [hcs] at h hsk
          simp only [List.length_cons] at h hsk
          by_cases hcomma : c = ','
          · rw [if_pos hcomma] at h
            cases hm : scanElems f d r1 with
            | none => rw [hm] at h; cases h
            | some p =>
              obtain ⟨ws, r2⟩ := p
              rw [hm] at h
              simp only [Option.map_some', Option.some.injEq, Prod.mk.injEq] at h
              obtain ⟨rfl, rfl⟩ := h
              obtain ⟨hlen, hfuel⟩ := ihE _ _ _ _ hm
              refine ⟨by omega, fun g hg => ?_⟩
              obtain ⟨g, rfl⟩ : ∃ k, g = k + 1 := ⟨g - 1, by omega⟩
              simp only [scanElems, hfuelV g (by omega), hcs, if_pos hcomma,
                hfuel g (by omega), Option.map_some']
          · rw [if_neg hcomma] at h
            by_cases hclose : c = ']'
            · rw [if_pos hclose] at h
              simp only [Option.some.injEq, Prod.mk.injEq] at h
              obtain ⟨rfl, rfl⟩ := h
              refine ⟨by omega, fun g hg => ?_⟩
              obtain ⟨g, rfl⟩ : ∃ k, g = k + 1 := ⟨g - 1, by omega⟩
              simp only [scanElems, hfuelV g (by omega), hcs, if_neg hcomma, if_pos hclose]
            · rw [if_neg hclose] at h; cases h
    · intro d cs ms rest h
      simp only [scanMembers] at h
      have hsk := skipSpace_length_le cs
      cases hcs : skipSpace cs with
      | nil => rw [hcs] at h; cases h
      | cons q r =>
        rw [hcs] at h hsk
        simp only [List.length_cons] at h hsk
        by_cases hq : q = '"'
        · rw [if_pos hq] at h
          cases hk : scanString (r.length + 1) [] r with
          | none => rw [hk] at h; cases h
          | some p =>
            obtain ⟨k, r1⟩ := p
            rw [hk] at h
            simp only at h
            have hlenK := scanString_length_le _ _ _ _ _ hk
            have hsk1 := skipSpace_length_le r1
            cases hcs1 : skipSpace r1 with
            | nil => rw [hcs1] at h; cases h
            | cons colon r2 =>
              rw [hcs1] at h hsk1
              simp only [List.length_cons] at h hsk1
              by_cases hcolon : colon = ':'
              · rw [if_pos hcolon] at h
                cases hv : scanValue f d r2 with
                | none => rw [hv] at h; cases h
                | some p =>
                  obtain ⟨v, r3⟩ := p
                  rw [hv] at h
                  simp only at h
                  obtain ⟨hlenV, hfuelV⟩ := ihV _ _ _ _ hv
                  have hsk3 := skipSpace_length_le r3
                  cases hcs3 : skipSpace r3 with
                  | nil => rw [hcs3] at h; cases h
                  | cons c r4 =>
                    rw [hcs3] at h hsk3
                    simp only [List.length_cons] at h hsk3
                    by_cases hcomma : c = ','
                    · rw [if_pos hcomma] at h
                      cases hm : scanMembers f d r4 with
                      | none => rw [hm] at h; cases h
                      | some p =>
                        obtain ⟨ws, r5⟩ := p
                        rw [hm] at h
                        simp only [Option.map_some', Option.some.injEq, Prod.mk.injEq] at h
                        obtain ⟨rfl, rfl⟩ := h
                        obtain ⟨hlen, hfuel⟩ := ihM _ _ _ _ hm
                        refine ⟨by omega, fun g hg => ?_⟩
                        obtain ⟨g, rfl⟩ : ∃ k, g = k + 1 := ⟨g - 1, by omega⟩
                        simp only [scanMembers, hcs, if_pos hq, hk, hcs1, if_pos hcolon,
                          hfuelV g (by omega), hcs3, if_pos hcomma, hfuel g (by omega),
                          Option.map_some']
                    · rw [if_neg hcomma] at h
                      by_cases hclose : c = '}'
                      · rw [if_pos hclose] at h
                        simp only [Option.some.injEq, Prod.mk.injEq] at h
                        obtain ⟨rfl, rfl⟩ := h
                        refine ⟨by omega, fun g hg => ?_⟩
                        obtain ⟨g, rfl⟩ : ∃ k, g = k + 1 := ⟨g - 1, by omega⟩
                        simp only [scanMembers, hcs, if_pos hq, hk, hcs1, if_pos hcolon,
                          hfuelV g (by omega), hcs3, if_neg hcomma, if_pos hclose]
                      · rw [if_neg hclose] at h; cases h
              · rw [if_neg hcolon] at h; cases h
        · rw [if_neg hq] at h; cases h

/-- Fuel adequacy of `jsonParse`: a body that the scanner accepts with some fuel,
as one value followed by white space only, is parsed by `jsonParse` to that
value. The fuel that `jsonParse` provides is never the reason for a syntax
error. -/
theorem jsonParse_of_scanValue (body : String) (f : Nat) (v : JValue) (rest : List Char)
    (h : scanValue f 0 body.data = some (v, rest))
    (hrest : (skipSpace rest).isEmpty = true) :
    jsonParse body = some v := by
  obtain ⟨_, hfuel⟩ := (scan_adequate f).1 0 body.data v rest h
  simp only [jsonParse, hfuel (2 * body.data.length + 2) (by omega), hrest, if_true]

/-! ## Lemmas on the library model -/

/-- The bound written out in `float64Bound` is `2^1024 - 2^970`. -/
theorem float64Bound_eq : float64Bound = 2 ^ 1024 - 2 ^ 970 := by
  norm_num [float64Bound]

/-- The largest finite `float64` fits, the next decimal of the same length does
not, and neither does `1e999`. -/
theorem float64Overflows_examples :
    float64Overflows "1.7976931348623157e308" = false ∧
    float64Overflows "1.7976931348623159e308" = true ∧
    float64Overflows "-1e999" = true ∧ float64Overflows "1e-999" = false := by
  refine ⟨by decide!, by decide!, by decide!, by decide!⟩

/-- `Itoa` on a few integers. -/
theorem Itoa_examples : Itoa 2 = "2" ∧ Itoa 0 = "0" ∧ Itoa (-25) = "-25" := by
  refine ⟨by decide, by decide, by decide⟩

/-- `bytesContains` is the contiguous-block relation on lists. -/
theorem bytesContains_iff_block (s pat : List Char) :
    bytesContains s pat = true ↔ pat <:+: s := by
  induction s with
  | nil => simp [bytesContains, List.isEmpty_iff]
  | cons c cs ih =>
    simp only [bytesContains, Bool.or_eq_true, ih, List.infix_cons_iff,
      List.isPrefixOf_iff_prefix]

/-- A text contains each of its endings. -/
theorem bytesContains_append_right (a b : List Char) : bytesContains (a ++ b) b = true := by
  rw [bytesContains_iff_block]
  exact (List.suffix_append a b).isInfix

/-- Decoding the members of an object into an `ErrorResult`, when every member
that is stored in a field holds a string or `null`: no error is saved, and
`ErrorMessage` ends as the string of the last such `errorMessage` member. -/
theorem foldl_storeMember_typed (members : List (String × JValue))
    (htyped : ∀ kv ∈ members, (fieldFor kv.1).isSome = true →
      kv.2 = JValue.null ∨ ∃ s, kv.2 = JValue.str s)
    (r : ErrorResult) (e : Option GoError) :
    (members.foldl storeMember (r, e)).2 = e ∧
    (members.foldl storeMember (r, e)).1.ErrorMessage
      = (lastStringFor ErrorResultField.ErrorMessage members).getD r.ErrorMessage := by
  induction members generalizing r with
  | nil => simp [lastStringFor]
  | cons kv ms ih =>
    obtain ⟨k, v⟩ := kv
    have hms : ∀ kv ∈ ms, (fieldFor kv.1).isSome = true →
        kv.2 = JValue.null ∨ ∃ s, kv.2 = JValue.str s :=
      fun kv hkv => htyped kv (List.mem_cons_of_mem _ hkv)
    have hhead := htyped (k, v) (List.mem_cons_self _ _)
    simp only [List.foldl_cons]
    cases hf : fieldFor k with
    | none =>
      have hst : storeMember (r, e) (k, v) = (r, e) := by simp [storeMember, hf]
      rw [hst]
      refine ⟨(ih hms r).1, ?_⟩
      rw [(ih hms r).2]
      simp only [lastStringFor, hf]
      cases lastStringFor ErrorResultField.ErrorMessage ms <;> cases v <;> simp
    | some f =>
      rcases hhead (by simp [hf]) with hnull | ⟨s, hs⟩
      · subst hnull
        have hst : storeMember (r, e) (k, JValue.null) = (r, e) := by
          simp [storeMember, hf, storeField]
        rw [hst]
        refine ⟨(ih hms r).1, ?_⟩
        rw [(ih hms r).2]
        simp only [lastStringFor]
        cases lastStringFor ErrorResultField.ErrorMessage ms <;> simp
      · subst hs
        have hst : storeMember (r, e) (k, JValue.str s) = (r.setField f s, e) := by
          simp [storeMember, hf, storeField]
        rw [hst]
        refine ⟨(ih hms _).1, ?_⟩
        rw [(ih hms _).2]
        simp only [lastStringFor, hf]
        cases lastStringFor ErrorResultField.ErrorMessage ms with
        | some t => simp
        | none =>
          cases f <;> simp [ErrorResult.setField]

/-- No unrepresentable number among the members means none in any member. -/
theorem badNumberMembers_none (members : List (String × JValue))
    (h : badNumberMembers members = none) : ∀ kv ∈ members, kv.2.badNumber = none := by
  induction members with
  | nil => simp
  | cons kv ms ih =>
    obtain ⟨k, v⟩ := kv
    rw [badNumberMembers] at h
    cases hv : v.badNumber with
    | some lit => rw [hv] at h; cases h
    | none =>
      rw [hv] at h
      intro kv' hkv'
      rcases List.mem_cons.mp hkv' with rfl | hmem
      · exact hv
      · exact ih h kv' hmem

/-- Decoding the members of an object whose numbers fit into a map: no error is
saved, and each key ends with the value of its last member. -/
theorem foldl_storeEntry_fits (members : List (String × JValue))
    (hfit : ∀ kv ∈ members, kv.2.badNumber = none)
    (m : GoMap JValue) (e : Option GoError) :
    (members.foldl storeEntry (m, e)).2 = e ∧
    ∀ key, (members.foldl storeEntry (m, e)).1 key
      = (match lastEntry key members with
        | some w => some w
        | none => m key) := by
  induction members generalizing m with
  | nil => simp [lastEntry]
  | cons kv ms ih =>
    obtain ⟨k, v⟩ := kv
    have hms : ∀ kv ∈ ms, kv.2.badNumber = none :=
      fun kv hkv => hfit kv (List.mem_cons_of_mem _ hkv)
    have hv : v.badNumber = none := hfit (k, v) (List.mem_cons_self _ _)
    have hst : storeEntry (m, e) (k, v) = (m.set k v, e) := by
      simp [storeEntry, hv]
    simp only [List.foldl_cons, hst]
    refine ⟨(ih hms _).1, fun key => ?_⟩
    rw [(ih hms _).2 key]
    simp only [lastEntry]
    cases lastEntry key ms with
    | some w => rfl
    | none =>
      by_cases hk : k = key
      · subst hk; simp [GoMap.set]
      · have hk' : ¬ key = k := fun h => hk h.symm
        simp [GoMap.set, hk, hk']

/-! ## The response decoder: `parseJsonResponse` -/

/-- The envelope branch: a body with the bytes `errorCode` is decoded into an
`ErrorResult` and nothing else; the destination is not touched. -/
theorem parseJsonResponse_envelope {D : Type} (decode : JValue → D → D × Option GoError)
    (resp : Response) (body : String) (d : D) (hbody : resp.Body = Except.ok body)
    (hmark : bytesContains body.data "errorCode".data = true) :
    parseJsonResponse decode resp d
      = (match (Unmarshal decodeErrorResult body
            { Result := "", ErrorCode := "", ErrorMessage := "" }).2 with
          | some err => Run.ret (some err)
          | none => Run.ret (some (GoError.errorsNew
              (Unmarshal decodeErrorResult body
                { Result := "", ErrorCode := "", ErrorMessage := "" }).1.ErrorMessage)), d) := by
  simp only [parseJsonResponse, hbody, hmark, if_true]
  split <;> simp_all

/-- The generic branch: a body with the bytes `"error"` and without `errorCode`
is decoded into a fresh map and nothing else; the destination is not touched. -/
theorem parseJsonResponse_generic {D : Type} (decode : JValue → D → D × Option GoError)
    (resp : Response) (body : String) (d : D) (hbody : resp.Body = Except.ok body)
    (hno : bytesContains body.data "errorCode".data = false)
    (hmark : bytesContains body.data "\"error\"".data = true) :
    parseJsonResponse decode resp d
      = (match (Unmarshal decodeMap body GoMap.empty).2 with
          | some err => Run.ret (some err)
          | none =>
            match (Unmarshal decodeMap body GoMap.empty).1 "error" with
            | some (JValue.str s) => Run.ret (some (GoError.errorsNew s))
            | some _ => Run.panic
            | none => Run.ret (some (GoError.errorsNew ("Unknown error response: " ++ body))), d) := by
  simp only [parseJsonResponse, hbody, hno, hmark, if_true, Bool.false_eq_true, if_false]
  split
  · simp_all
  · split <;> simp_all
    split <;> simp_all

/-- The payload branch: a body with neither marker goes to the destination. -/
theorem parseJsonResponse_payload {D : Type} (decode : JValue → D → D × Option GoError)
    (resp : Response) (body : String) (d : D) (hbody : resp.Body = Except.ok body)
    (hno : bytesContains body.data "errorCode".data = false)
    (hno' : bytesContains body.data "\"error\"".data = false) :
    parseJsonResponse decode resp d
      = (Run.ret (Unmarshal decode body d).2, (Unmarshal decode body d).1) := by
  simp [parseJsonResponse, hbody, hno, hno']

/-- What the generic branch does with a body that decodes to an object whose
numbers fit: it reads the last `error` member; a string is the message, any other
value aborts the call at `val.(string)`, and no member gives the "Unknown error
response" error with the whole body. -/
theorem parseJsonResponse_generic_object {D : Type} (decode : JValue → D → D × Option GoError)
    (resp : Response) (body : String) (members : List (String × JValue)) (d : D)
    (hbody : resp.Body = Except.ok body)
    (hno : bytesContains body.data "errorCode".data = false)
    (hmark : bytesContains body.data "\"error\"".data = true)
    (hobj : jsonParse body = some (JValue.obj members))
    (hfit : badNumberMembers members = none) :
    parseJsonResponse decode resp d
      = (match lastEntry "error" members with
          | some (JValue.str s) => Run.ret (some (GoError.errorsNew s))
          | some _ => Run.panic
          | none => Run.ret (some (GoError.errorsNew ("Unknown error response: " ++ body))), d) := by
  rw [parseJsonResponse_generic decode resp body d hbody hno hmark]
  have hfold := foldl_storeEntry_fits members (badNumberMembers_none members hfit) GoMap.empty none
  have h2 : (Unmarshal decodeMap body GoMap.empty).2 = none := by
    simp only [Unmarshal, hobj, decodeMap]; exact hfold.1
  have h1 : (Unmarshal decodeMap body GoMap.empty).1 "error" = lastEntry "error" members := by
    simp only [Unmarshal, hobj, decodeMap]
    rw [hfold.2 "error"]
    cases lastEntry "error" members <;> simp [GoMap.empty]
  rw [h2, h1]

/-- C1 (amended). For every destination shape and every response body that
contains the bytes `errorCode` and is a JSON object in which each member stored
in a field of `ErrorResult` (key `result`, `errorCode` or `errorMessage`, exactly
or ignoring case) holds a string or `null`, `parseJsonResponse` returns the error
`errors.New(m)`, where `m` is the string of the last `errorMessage` member (empty
when there is none), and leaves the destination as it was; other members, an
`error` member included, do not matter. -/
theorem parseJsonResponse_envelope_message {D : Type}
    (decode : JValue → D → D × Option GoError) (resp : Response) (body : String)
    (members : List (String × JValue)) (d : D)
    (hbody : resp.Body = Except.ok body)
    (hmark : bytesContains body.data "errorCode".data = true)
    (hobj : jsonParse body = some (JValue.obj members))
    (htyped : ∀ kv ∈ members, (fieldFor kv.1).isSome = true →
      kv.2 = JValue.null ∨ ∃ s, kv.2 = JValue.str s) :
    parseJsonResponse decode resp d
      = (Run.ret (some (GoError.errorsNew
          ((lastStringFor ErrorResultField.ErrorMessage members).getD ""))), d) := by
  rw [parseJsonResponse_envelope decode resp body d hbody hmark]
  have hfold := foldl_storeMember_typed members htyped
    { Result := "", ErrorCode := "", ErrorMessage := "" } none
  have h2 : (Unmarshal decodeErrorResult body
      { Result := "", ErrorCode := "", ErrorMessage := "" }).2 = none := by
    simp only [Unmarshal, hobj, decodeErrorResult]; exact hfold.1
  have h1 : (Unmarshal decodeErrorResult body
      { Result := "", ErrorCode := "", ErrorMessage := "" }).1.ErrorMessage
        = (lastStringFor ErrorResultField.ErrorMessage members).getD "" := by
    simp only [Unmarshal, hobj, decodeErrorResult]; exact hfold.2
  rw [h2, h1]

/-- Witness of C1 (amended): an envelope that also carries an `error` member,
decoded for a map destination. -/
theorem parseJsonResponse_envelope_message_witness :
    bytesContains
      "\x7b\"errorCode\": \"E401\", \"errorMessage\": \"token expired\", \"error\": \"x\"\x7d".data
      "errorCode".data = true ∧
    parseJsonResponse decodeMap
      (Response.ofBody
        "\x7b\"errorCode\": \"E401\", \"errorMessage\": \"token expired\", \"error\": \"x\"\x7d")
      GoMap.empty
      = (Run.ret (some (GoError.errorsNew "token expired")), GoMap.empty) :=
  ⟨by decide,
   parseJsonResponse_envelope_message decodeMap
    (Response.ofBody
      "\x7b\"errorCode\": \"E401\", \"errorMessage\": \"token expired\", \"error\": \"x\"\x7d")
    "\x7b\"errorCode\": \"E401\", \"errorMessage\": \"token expired\", \"error\": \"x\"\x7d"
    [("errorCode", JValue.str "E401"), ("errorMessage", JValue.str "token expired"),
      ("error", JValue.str "x")]
    GoMap.empty rfl (by decide) (by rfl)
    (by
      intro kv hkv _
      simp only [List.mem_cons, List.mem_singleton, List.not_mem_nil, or_false] at hkv
      rcases hkv with rfl | rfl | rfl <;> simp)⟩

/-- C1 (counterexample). The envelope `{"errorCode": 404, "errorMessage": "Not
Found"}` is a JSON object with an `errorCode` field, yet the error returned is
the type error of `json.Unmarshal` (a number cannot go into the `string` field
`ErrorCode`), not `errors.New("Not Found")`. And an object whose `errorCode` key
is spelled with an escape has no `errorCode` bytes: it is decoded as a payload
and the call returns no error. -/
theorem parseJsonResponse_envelope_counterexample :
    jsonParse "\x7b\"errorCode\": 404, \"errorMessage\": \"Not Found\"\x7d"
      = some (JValue.obj [("errorCode", JValue.num "404"),
          ("errorMessage", JValue.str "Not Found")]) ∧
    (parseJsonResponse decodeMap
      (Response.ofBody "\x7b\"errorCode\": 404, \"errorMessage\": \"Not Found\"\x7d") GoMap.empty).1
      = Run.ret (some (GoError.jsonType "number" "ErrorResult.errorCode")) ∧
    (parseJsonResponse decodeMap
      (Response.ofBody "\x7b\"errorCode\": 404, \"errorMessage\": \"Not Found\"\x7d") GoMap.empty).1
      ≠ Run.ret (some (GoError.errorsNew "Not Found")) ∧
    jsonParse "\x7b\"error\\u0043ode\": \"E1\", \"errorMessage\": \"boom\"\x7d"
      = some (JValue.obj [("errorCode", JValue.str "E1"),
          ("errorMessage", JValue.str "boom")]) ∧
    (parseJsonResponse decodeMap
      (Response.ofBody "\x7b\"error\\u0043ode\": \"E1\", \"errorMessage\": \"boom\"\x7d")
      GoMap.empty).1 = Run.ret none := by
  refine ⟨by rfl, by decide, by decide, by rfl, by decide⟩

/-- C2 (amended). For every destination shape and every response body that has
the bytes `"error"` and not the bytes `errorCode`, and that is a JSON object
(every number of which fits a `float64`) whose top-level `error` member, the last
one if the key is repeated, is a string `s`, `parseJsonResponse` returns the
error `errors.New(s)` and leaves the destination as it was. -/
theorem parseJsonResponse_generic_message {D : Type}
    (decode : JValue → D → D × Option GoError) (resp : Response) (body : String)
    (members : List (String × JValue)) (s : String) (d : D)
    (hbody : resp.Body = Except.ok body)
    (hno : bytesContains body.data "errorCode".data = false)
    (hmark : bytesContains body.data "\"error\"".data = true)
    (hobj : jsonParse body = some (JValue.obj members))
    (hfit : badNumberMembers members = none)
    (herr : lastEntry "error" members = some (JValue.str s)) :
    parseJsonResponse decode resp d = (Run.ret (some (GoError.errorsNew s)), d) := by
  rw [parseJsonResponse_generic_object decode resp body members d hbody hno hmark hobj hfit,
    herr]

/-- Witness of C2 (amended): `{"error": "invalid_token", "status": 401}` decoded
for an `ErrorResult` destination. -/
theorem parseJsonResponse_generic_message_witness :
    bytesContains "\x7b\"error\": \"invalid_token\", \"status\": 401\x7d".data
      "errorCode".data = false ∧
    bytesContains "\x7b\"error\": \"invalid_token\", \"status\": 401\x7d".data
      "\"error\"".data = true ∧
    parseJsonResponse decodeErrorResult
      (Response.ofBody "\x7b\"error\": \"invalid_token\", \"status\": 401\x7d")
      { Result := "", ErrorCode := "", ErrorMessage := "" }
      = (Run.ret (some (GoError.errorsNew "invalid_token")),
          { Result := "", ErrorCode := "", ErrorMessage := "" }) :=
  ⟨by decide, by decide,
   parseJsonResponse_generic_message decodeErrorResult
    (Response.ofBody "\x7b\"error\": \"invalid_token\", \"status\": 401\x7d")
    "\x7b\"error\": \"invalid_token\", \"status\": 401\x7d"
    [("error", JValue.str "invalid_token"), ("status", JValue.num "401")]
    "invalid_token" { Result := "", ErrorCode := "", ErrorMessage := "" }
    rfl (by decide) (by decide) (by rfl) (by decide) (by rfl)⟩

/-- C2 (counterexample). Three JSON objects whose top-level `error` field is a
string, none of which gives that string as the message. The first also has the
bytes `errorCode`: the envelope branch runs and the message is `structured`. The
second spells the key with an escape, so the bytes `"error"` are absent: the body
is decoded as a payload and no error is returned. The third holds a number that
no `float64` can hold: the type error of `json.Unmarshal` is returned. -/
theorem parseJsonResponse_generic_counterexample :
    jsonParse
      "\x7b\"error\": \"generic\", \"errorCode\": \"E1\", \"errorMessage\": \"structured\"\x7d"
      = some (JValue.obj [("error", JValue.str "generic"), ("errorCode", JValue.str "E1"),
          ("errorMessage", JValue.str "structured")]) ∧
    (parseJsonResponse decodeMap
      (Response.ofBody
        "\x7b\"error\": \"generic\", \"errorCode\": \"E1\", \"errorMessage\": \"structured\"\x7d")
      GoMap.empty).1 = Run.ret (some (GoError.errorsNew "structured")) ∧
    (parseJsonResponse decodeMap
      (Response.ofBody
        "\x7b\"error\": \"generic\", \"errorCode\": \"E1\", \"errorMessage\": \"structured\"\x7d")
      GoMap.empty).1 ≠ Run.ret (some (GoError.errorsNew "generic")) ∧
    jsonParse "\x7b\"\\u0065rror\": \"denied\"\x7d"
      = some (JValue.obj [("error", JValue.str "denied")]) ∧
    (parseJsonResponse decodeMap (Response.ofBody "\x7b\"\\u0065rror\": \"denied\"\x7d")
      GoMap.empty).1 = Run.ret none ∧
    jsonParse "\x7b\"error\": \"denied\", \"retry\": 1e999\x7d"
      = some (JValue.obj [("error", JValue.str "denied"), ("retry", JValue.num "1e999")]) ∧
    (parseJsonResponse decodeMap
      (Response.ofBody "\x7b\"error\": \"denied\", \"retry\": 1e999\x7d") GoMap.empty).1
      = Run.ret (some (GoError.jsonType "number 1e999" "float64")) := by
  refine ⟨by rfl, by decide, by decide, by rfl, by decide, by rfl, by decide!⟩

/-- The generic branch aborts on every `error` member that is not a string: for a
body with the bytes `"error"` and not `errorCode` that is a JSON object (numbers
fitting) whose last `error` member is a number, a boolean, `null`, an array or an
object, the call panics at `val.(string)`. -/
theorem parseJsonResponse_generic_nonstring_panics {D : Type}
    (decode : JValue → D → D × Option GoError) (resp : Response) (body : String)
    (members : List (String × JValue)) (v : JValue) (d : D)
    (hbody : resp.Body = Except.ok body)
    (hno : bytesContains body.data "errorCode".data = false)
    (hmark : bytesContains body.data "\"error\"".data = true)
    (hobj : jsonParse body = some (JValue.obj members))
    (hfit : badNumberMembers members = none)
    (herr : lastEntry "error" members = some v)
    (hv : ∀ s, v ≠ JValue.str s) :
    parseJsonResponse decode resp d = (Run.panic, d) := by
  rw [parseJsonResponse_generic_object decode resp body members d hbody hno hmark hobj hfit,
    herr]
  cases v with
  | str s => exact absurd rfl (hv s)
  | _ => rfl

/-- The generic branch on an object without a top-level `error` member: the
"Unknown error response" error with the whole body. -/
theorem parseJsonResponse_generic_absent {D : Type}
    (decode : JValue → D → D × Option GoError) (resp : Response) (body : String)
    (members : List (String × JValue)) (d : D)
    (hbody : resp.Body = Except.ok body)
    (hno : bytesContains body.data "errorCode".data = false)
    (hmark : bytesContains body.data "\"error\"".data = true)
    (hobj : jsonParse body = some (JValue.obj members))
    (hfit : badNumberMembers members = none)
    (herr : lastEntry "error" members = none) :
    parseJsonResponse decode resp d
      = (Run.ret (some (GoError.errorsNew ("Unknown error response: " ++ body))), d) := by
  rw [parseJsonResponse_generic_object decode resp body members d hbody hno hmark hobj hfit,
    herr]

/-- C3 (failing input). The body `{"error": 5}` reaches the generic branch (it
has the bytes `"error"`, not `errorCode`) and decodes to an object whose `error`
entry is a number; `parseJsonResponse` does not return the "Unknown error
response" error: it panics at the type assertion `val.(string)`. -/
theorem parseJsonResponse_error_number_panics :
    bytesContains "\x7b\"error\": 5\x7d".data "errorCode".data = false ∧
    bytesContains "\x7b\"error\": 5\x7d".data "\"error\"".data = true ∧
    jsonParse "\x7b\"error\": 5\x7d" = some (JValue.obj [("error", JValue.num "5")]) ∧
    (parseJsonResponse decodeMap (Response.ofBody "\x7b\"error\": 5\x7d") GoMap.empty).1
      = Run.panic ∧
    (parseJsonResponse decodeMap (Response.ofBody "\x7b\"error\": 5\x7d") GoMap.empty).1
      ≠ Run.ret (some (GoError.errorsNew "Unknown error response: \x7b\"error\": 5\x7d")) := by
  refine ⟨by decide, by decide, by rfl, by decide, by decide⟩

/-- Whatever the decoders report, a body with one of the two markers never gives
success and never reaches the destination: the call returns a non-nil error or
panics, and the destination is as it was. -/
theorem parseJsonResponse_marker_not_ok {D : Type}
    (decode : JValue → D → D × Option GoError) (resp : Response) (body : String) (d : D)
    (hbody : resp.Body = Except.ok body)
    (hmark : bytesContains body.data "errorCode".data = true ∨
      bytesContains body.data "\"error\"".data = true) :
    (parseJsonResponse decode resp d).1 ≠ Run.ret none ∧
    (parseJsonResponse decode resp d).2 = d := by
  cases hcode : bytesContains body.data "errorCode".data with
  | true =>
    rw [parseJsonResponse_envelope decode resp body d hbody hcode]
    refine ⟨?_, rfl⟩
    cases (Unmarshal decodeErrorResult body
      { Result := "", ErrorCode := "", ErrorMessage := "" }).2 <;> simp
  | false =>
    have hgen : bytesContains body.data "\"error\"".data = true := by
      rcases hmark with h | h
      · rw [hcode] at h; cases h
      · exact h
    rw [parseJsonResponse_generic decode resp body d hbody hcode hgen]
    refine ⟨?_, rfl⟩
    cases (Unmarshal decodeMap body GoMap.empty).2 with
    | some err => simp
    | none =>
      cases (Unmarshal decodeMap body GoMap.empty).1 "error" with
      | none => simp
      | some v => cases v <;> simp

/-- Success implies a body free of both markers. -/
theorem parseJsonResponse_ok_no_marker {D : Type}
    (decode : JValue → D → D × Option GoError) (resp : Response) (d : D)
    (hok : (parseJsonResponse decode resp d).1 = Run.ret none) :
    ∃ body, resp.Body = Except.ok body ∧
      bytesContains body.data "errorCode".data = false ∧
      bytesContains body.data "\"error\"".data = false := by
  cases hb : resp.Body with
  | error err => simp [parseJsonResponse, hb] at hok
  | ok body =>
    refine ⟨body, rfl, ?_, ?_⟩
    · cases h : bytesContains body.data "errorCode".data with
      | false => rfl
      | true => exact absurd hok (parseJsonResponse_marker_not_ok decode resp body d hb (Or.inl h)).1
    · cases h : bytesContains body.data "\"error\"".data with
      | false => rfl
      | true => exact absurd hok (parseJsonResponse_marker_not_ok decode resp body d hb (Or.inr h)).1

/-- C9 (amended). For every destination shape, response and destination value
`d`: when the body cannot be read, the read error is returned and the destination
is `d`; when the body has the bytes `errorCode` or `"error"`, the destination is
`d` whatever the call does; when the body is not valid JSON, the syntax error is
returned and the destination is `d`. (A valid body without markers is handed to
`json.Unmarshal`, and the destination is what that leaves.) -/
theorem parseJsonResponse_destination {D : Type}
    (decode : JValue → D → D × Option GoError) (resp : Response) (d : D) :
    (∀ err, resp.Body = Except.error err →
      parseJsonResponse decode resp d = (Run.ret (some err), d)) ∧
    (∀ body, resp.Body = Except.ok body →
      (bytesContains body.data "errorCode".data = true ∨
        bytesContains body.data "\"error\"".data = true) →
      (parseJsonResponse decode resp d).2 = d) ∧
    (∀ body, resp.Body = Except.ok body → jsonParse body = none →
      parseJsonResponse decode resp d = (Run.ret (some GoError.jsonSyntax), d)) := by
  refine ⟨?_, ?_, ?_⟩
  · intro err hb
    simp [parseJsonResponse, hb]
  · intro body hb hmark
    exact (parseJsonResponse_marker_not_ok decode resp body d hb hmark).2
  · intro body hb hbad
    cases hcode : bytesContains body.data "errorCode".data with
    | true =>
      rw [parseJsonResponse_envelope decode resp body d hb hcode]
      simp [Unmarshal, hbad]
    | false =>
      cases hgen : bytesContains body.data "\"error\"".data with
      | true =>
        rw [parseJsonResponse_generic decode resp body d hb hcode hgen]
        simp [Unmarshal, hbad]
      | false =>
        rw [parseJsonResponse_payload decode resp body d hb hcode hgen]
        simp [Unmarshal, hbad]

/-- Witness of C9 (amended): the three cases on an `ErrorResult` destination that
already holds data. -/
theorem parseJsonResponse_destination_witness :
    parseJsonResponse decodeErrorResult
      { Body := Except.error (GoError.other "unexpected EOF"), RequestURL := none }
      { Result := "kept", ErrorCode := "", ErrorMessage := "" }
      = (Run.ret (some (GoError.other "unexpected EOF")),
          { Result := "kept", ErrorCode := "", ErrorMessage := "" }) ∧
    (parseJsonResponse decodeErrorResult
      (Response.ofBody "\x7b\"result\": \"overwritten\", \"note\": \"errorCode\"\x7d")
      { Result := "kept", ErrorCode := "", ErrorMessage := "" }).2
      = { Result := "kept", ErrorCode := "", ErrorMessage := "" } ∧
    parseJsonResponse decodeErrorResult
      (Response.ofBody "\x7b\"result\": \"overwritten\",")
      { Result := "kept", ErrorCode := "", ErrorMessage := "" }
      = (Run.ret (some GoError.jsonSyntax),
          { Result := "kept", ErrorCode := "", ErrorMessage := "" }) :=
  ⟨(parseJsonResponse_destination decodeErrorResult
      { Body := Except.error (GoError.other "unexpected EOF"), RequestURL := none }
      { Result := "kept", ErrorCode := "", ErrorMessage := "" }).1 _ rfl,
   (parseJsonResponse_destination decodeErrorResult
      (Response.ofBody "\x7b\"result\": \"overwritten\", \"note\": \"errorCode\"\x7d")
      { Result := "kept", ErrorCode := "", ErrorMessage := "" }).2.1 _ rfl
      (Or.inl (by decide)),
   (parseJsonResponse_destination decodeErrorResult
      (Response.ofBody "\x7b\"result\": \"overwritten\",")
      { Result := "kept", ErrorCode := "", ErrorMessage := "" }).2.2 _ rfl (by rfl)⟩

/-- C9 (counterexample). With an `ErrorResult` destination and the body
`{"result": "ok", "errorMessage": 5}`, which has no marker, `parseJsonResponse`
returns the type error of `json.Unmarshal` and the destination has changed: its
`Result` field is already `ok`. -/
theorem parseJsonResponse_destination_counterexample :
    parseJsonResponse decodeErrorResult
      (Response.ofBody "\x7b\"result\": \"ok\", \"errorMessage\": 5\x7d")
      { Result := "", ErrorCode := "", ErrorMessage := "" }
      = (Run.ret (some (GoError.jsonType "number" "ErrorResult.errorMessage")),
          { Result := "ok", ErrorCode := "", ErrorMessage := "" }) ∧
    (parseJsonResponse decodeErrorResult
      (Response.ofBody "\x7b\"result\": \"ok\", \"errorMessage\": 5\x7d")
      { Result := "", ErrorCode := "", ErrorMessage := "" }).2
      ≠ { Result := "", ErrorCode := "", ErrorMessage := "" } := by
  refine ⟨by decide, by decide⟩

/-- C10 (failing input). The body `{"error": {"code": 7, "message": "denied"}}`
has the bytes `"error"`; `parseJsonResponse` does not return a non-nil error for
it: it panics at the type assertion `val.(string)`, for whatever destination. -/
theorem parseJsonResponse_error_object_panics :
    bytesContains "\x7b\"error\": \x7b\"code\": 7, \"message\": \"denied\"\x7d\x7d".data
      "\"error\"".data = true ∧
    (∀ (D : Type) (decode : JValue → D → D × Option GoError) (d : D),
      parseJsonResponse decode
        (Response.ofBody "\x7b\"error\": \x7b\"code\": 7, \"message\": \"denied\"\x7d\x7d") d
        = (Run.panic, d)) := by
  refine ⟨by decide, fun D decode d => ?_⟩
  exact parseJsonResponse_generic_nonstring_panics decode _
    "\x7b\"error\": \x7b\"code\": 7, \"message\": \"denied\"\x7d\x7d"
    [("error", JValue.obj [("code", JValue.num "7"), ("message", JValue.str "denied")])]
    (JValue.obj [("code", JValue.num "7"), ("message", JValue.str "denied")]) d
    rfl (by decide) (by decide) (by rfl) (by decide) (by rfl) (fun s h => by cases h)

/-! ## The query builder: `GetRequestParams` -/

/-- On a bag of supported values the loop never panics: it is the fold that sets
each key to the rendered value. -/
theorem rangeParams_supported (bag : Params) (params : Values)
    (hkinds : ∀ kv ∈ bag, kv.2.isIntStringBytes = true) :
    rangeParams bag params
      = Run.ret (bag.foldl (fun p kv => Values.Set p kv.1 kv.2.render) params) := by
  induction bag generalizing params with
  | nil => rfl
  | cons kv rest ih =>
    obtain ⟨key, val⟩ := kv
    have hrest : ∀ kv ∈ rest, kv.2.isIntStringBytes = true :=
      fun kv hkv => hkinds kv (List.mem_cons_of_mem _ hkv)
    have hval := hkinds (key, val) (List.mem_cons_self _ _)
    cases val with
    | int n => simp [rangeParams, GoValue.assertInt, GoValue.render, ih _ hrest]
    | string s => simp [rangeParams, GoValue.render, ih _ hrest]
    | bytes b => simp [rangeParams, GoValue.render, ih _ hrest]
    | int8 n => simp [GoValue.isIntStringBytes] at hval
    | int16 n => simp [GoValue.isIntStringBytes] at hval
    | int32 n => simp [GoValue.isIntStringBytes] at hval
    | int64 n => simp [GoValue.isIntStringBytes] at hval
    | other t => simp [GoValue.isIntStringBytes] at hval

/-- A bag with an entry of any kind but `int`, `string` and `[]byte` makes the
loop panic, wherever the entry stands in the traversal. -/
theorem rangeParams_unsupported (bag : Params) (params : Values)
    (hbad : ∃ kv ∈ bag, kv.2.isIntStringBytes = false) :
    rangeParams bag params = Run.panic := by
  induction bag generalizing params with
  | nil =>
    obtain ⟨kv, hkv, _⟩ := hbad
    cases hkv
  | cons kv rest ih =>
    obtain ⟨key, val⟩ := kv
    have hrest : val.isIntStringBytes = true → ∃ kv ∈ rest, kv.2.isIntStringBytes = false := by
      intro hval
      obtain ⟨kv, hkv, hk⟩ := hbad
      rcases List.mem_cons.mp hkv with rfl | hmem
      · rw [hval] at hk; cases hk
      · exact ⟨kv, hmem, hk⟩
    cases val with
    | int n => simp [rangeParams, GoValue.assertInt, ih _ (hrest rfl)]
    | string s => simp [rangeParams, ih _ (hrest rfl)]
    | bytes b => simp [rangeParams, ih _ (hrest rfl)]
    | int8 n => simp [rangeParams, GoValue.assertInt]
    | int16 n => simp [rangeParams, GoValue.assertInt]
    | int32 n => simp [rangeParams, GoValue.assertInt]
    | int64 n => simp [rangeParams, GoValue.assertInt]
    | other t => simp [rangeParams, GoValue.assertString]

/-- A key that the bag does not have keeps its value through the fold. -/
theorem foldl_Set_not_mem (bag : Params) (params : Values) (k : String)
    (hk : k ∉ bag.map Prod.fst) :
    (bag.foldl (fun p kv => Values.Set p kv.1 kv.2.render) params) k = params k := by
  induction bag generalizing params with
  | nil => rfl
  | cons kv rest ih =>
    have hne : ¬ k = kv.1 := fun h => hk (by simp [h])
    have hrest : k ∉ rest.map Prod.fst := fun h => hk (by simp at h ⊢; exact Or.inr h)
    simp only [List.foldl_cons]
    rw [ih _ hrest]
    simp [Values.Set, GoMap.set, hne]

/-- A key of a bag with distinct keys ends with the rendered value of its entry. -/
theorem foldl_Set_mem (bag : Params) (params : Values) (k : String) (v : GoValue)
    (hnodup : (bag.map Prod.fst).Nodup) (hmem : (k, v) ∈ bag) :
    (bag.foldl (fun p kv => Values.Set p kv.1 kv.2.render) params) k = some [v.render] := by
  induction bag generalizing params with
  | nil => cases hmem
  | cons kv rest ih =>
    simp only [List.map_cons, List.nodup_cons] at hnodup
    simp only [List.foldl_cons]
    rcases List.mem_cons.mp hmem with heq | hrest
    · subst heq
      rw [foldl_Set_not_mem rest _ k hnodup.1]
      simp [Values.Set, GoMap.set]
    · exact ih _ hnodup.2 hrest

/-- C5 (failing input). The bag `{"page": int8(2)}` has an integer of an accepted
kind, but `GetRequestParams` does not complete: the assertion `t.(int)` in the
shared `case int, int8, int16, int32, int64` panics on every kind but `int`. -/
theorem GetRequestParams_int8_panics :
    GetRequestParams { AccessToken := "T1" } (some [("page", GoValue.int8 2)]) = Run.panic ∧
    GetRequestParams { AccessToken := "T1" } (some [("page", GoValue.int16 2)]) = Run.panic ∧
    GetRequestParams { AccessToken := "T1" } (some [("page", GoValue.int32 2)]) = Run.panic ∧
    GetRequestParams { AccessToken := "T1" } (some [("page", GoValue.int64 2)]) = Run.panic :=
  ⟨rfl, rfl, rfl, rfl⟩

/-- The `int` kind itself is rendered in decimal, whatever else the bag of
supported values holds. -/
theorem GetRequestParams_int (t : String) (bag : Params) (k : String) (n : Int)
    (hkinds : ∀ kv ∈ bag, kv.2.isIntStringBytes = true)
    (hnodup : (bag.map Prod.fst).Nodup) (hmem : (k, GoValue.int n) ∈ bag) :
    ∃ vals, GetRequestParams { AccessToken := t } (some bag) = Run.ret vals ∧
      vals k = some [Itoa n] := by
  refine ⟨_, rangeParams_supported bag _ hkinds, ?_⟩
  exact foldl_Set_mem bag _ k (GoValue.int n) hnodup hmem

/-- C4 (amended). For every token `t`, the empty one included: with a nil bag, and
with every bag of `int`, `string` and `[]byte` values that has no key
`access_token`, `GetRequestParams` returns a value set that maps `access_token`
to the single value `t`; with such a bag that has the key `access_token`, the
value set maps `access_token` to the single text of the bag's own value. -/
theorem GetRequestParams_access_token (t : String) :
    (∃ vals, GetRequestParams { AccessToken := t } none = Run.ret vals ∧
      vals "access_token" = some [t]) ∧
    (∀ bag : Params, (∀ kv ∈ bag, kv.2.isIntStringBytes = true) →
      "access_token" ∉ bag.map Prod.fst →
      ∃ vals, GetRequestParams { AccessToken := t } (some bag) = Run.ret vals ∧
        vals "access_token" = some [t]) ∧
    (∀ (bag : Params) (v : GoValue), (∀ kv ∈ bag, kv.2.isIntStringBytes = true) →
      (bag.map Prod.fst).Nodup → ("access_token", v) ∈ bag →
      ∃ vals, GetRequestParams { AccessToken := t } (some bag) = Run.ret vals ∧
        vals "access_token" = some [v.render]) := by
  refine ⟨⟨_, rfl, ?_⟩, ?_, ?_⟩
  · simp [GoMap.set]
  · intro bag hkinds hkey
    refine ⟨_, rangeParams_supported bag _ hkinds, ?_⟩
    rw [foldl_Set_not_mem bag _ "access_token" hkey]
    simp [GoMap.set]
  · intro bag v hkinds hnodup hmem
    refine ⟨_, rangeParams_supported bag _ hkinds, ?_⟩
    exact foldl_Set_mem bag _ "access_token" v hnodup hmem

/-- Witness of C4 (amended): the empty token with a nil bag and with the bag
`{"count": 10}`. -/
theorem GetRequestParams_access_token_witness :
    (∃ vals, GetRequestParams { AccessToken := "" } none = Run.ret vals ∧
      vals "access_token" = some [""]) ∧
    (∃ vals, GetRequestParams { AccessToken := "" } (some [("count", GoValue.int 10)])
        = Run.ret vals ∧ vals "access_token" = some [""]) :=
  ⟨(GetRequestParams_access_token "").1,
   (GetRequestParams_access_token "").2.1 [("count", GoValue.int 10)] (by decide) (by decide)⟩

/-- C4 (counterexample). With token `T1` and the bag `{"access_token": "other"}`
the value set maps `access_token` to `other`, not to `T1`. -/
theorem GetRequestParams_access_token_counterexample :
    ∃ vals, GetRequestParams { AccessToken := "T1" }
        (some [("access_token", GoValue.string "other")]) = Run.ret vals ∧
      vals "access_token" = some ["other"] ∧ vals "access_token" ≠ some ["T1"] :=
  ⟨_, rfl, by decide, by decide⟩

/-- C6. For every token `t` and every bag (a map: distinct keys) whose values are
all of kind `int`, `string` or `[]byte` and which has no key `access_token`,
`GetRequestParams` returns a value set `vals` such that: `access_token` has the
single value `t`; the key of an `int` entry has the single value `Itoa n`, the key
of a `string` entry the string itself, the key of a `[]byte` entry the text of
the bytes; no other key is present; and every other traversal order of the same
bag returns the same `vals`. -/
theorem GetRequestParams_value_set (t : String) (bag : Params)
    (hkinds : ∀ kv ∈ bag, (∃ n, kv.2 = GoValue.int n) ∨ (∃ s, kv.2 = GoValue.string s) ∨
      (∃ b, kv.2 = GoValue.bytes b))
    (hnodup : (bag.map Prod.fst).Nodup)
    (hkey : "access_token" ∉ bag.map Prod.fst) :
    ∃ vals, GetRequestParams { AccessToken := t } (some bag) = Run.ret vals ∧
      vals "access_token" = some [t] ∧
      (∀ k n, (k, GoValue.int n) ∈ bag → vals k = some [Itoa n]) ∧
      (∀ k s, (k, GoValue.string s) ∈ bag → vals k = some [s]) ∧
      (∀ k b, (k, GoValue.bytes b) ∈ bag → vals k = some [b]) ∧
      (∀ k, vals k ≠ none → k = "access_token" ∨ k ∈ bag.map Prod.fst) ∧
      (∀ bag' : Params, bag'.Perm bag →
        GetRequestParams { AccessToken := t } (some bag') = Run.ret vals) := by
  have hsupp : ∀ b : Params, b.Perm bag → ∀ kv ∈ b, kv.2.isIntStringBytes = true := by
    intro b hperm kv hkv
    rcases hkinds kv (hperm.mem_iff.mp hkv) with ⟨n, h⟩ | ⟨s, h⟩ | ⟨b, h⟩ <;>
      simp [h, GoValue.isIntStringBytes]
  refine ⟨_, rangeParams_supported bag _ (hsupp bag (List.Perm.refl _)), ?_, ?_, ?_, ?_, ?_, ?_⟩
  · rw [foldl_Set_not_mem bag _ "access_token" hkey]
    simp [GoMap.set]
  · intro k n hmem
    exact foldl_Set_mem bag _ k (GoValue.int n) hnodup hmem
  · intro k s hmem
    exact foldl_Set_mem bag _ k (GoValue.string s) hnodup hmem
  · intro k b hmem
    exact foldl_Set_mem bag _ k (GoValue.bytes b) hnodup hmem
  · intro k hk
    by_cases hmem : k ∈ bag.map Prod.fst
    · exact Or.inr hmem
    · rw [foldl_Set_not_mem bag _ k hmem] at hk
      left
      by_contra hne
      exact hk (by simp [GoMap.set, GoMap.empty, hne])
  · intro bag' hperm
    rw [GetRequestParams, rangeParams_supported bag' _ (hsupp bag' hperm)]
    congr 1
    funext k
    have hnodup' : (bag'.map Prod.fst).Nodup := (hperm.map Prod.fst).nodup_iff.mpr hnodup
    by_cases hmem : k ∈ bag.map Prod.fst
    · obtain ⟨kv, hkv, rfl⟩ := List.mem_map.mp hmem
      rw [foldl_Set_mem bag _ kv.1 kv.2 hnodup hkv,
        foldl_Set_mem bag' _ kv.1 kv.2 hnodup' (hperm.mem_iff.mpr hkv)]
    · have hmem' : k ∉ bag'.map Prod.fst := fun h => hmem ((hperm.map Prod.fst).mem_iff.mp h)
      rw [foldl_Set_not_mem bag _ k hmem, foldl_Set_not_mem bag' _ k hmem']

/-- Witness of C6: token `T1` and the bag `{"page": 2, "type": "run"}` give
`access_token=T1`, `page=2`, `type=run`, in either traversal order. -/
theorem GetRequestParams_value_set_witness :
    ∃ vals, GetRequestParams { AccessToken := "T1" }
        (some [("page", GoValue.int 2), ("type", GoValue.string "run")]) = Run.ret vals ∧
      GetRequestParams { AccessToken := "T1" }
        (some [("type", GoValue.string "run"), ("page", GoValue.int 2)]) = Run.ret vals ∧
      vals "access_token" = some ["T1"] ∧ vals "page" = some ["2"] ∧
      vals "type" = some ["run"] := by
  obtain ⟨vals, hret, htok, hint, hstr, _, _, hperm⟩ :=
    GetRequestParams_value_set "T1" [("page", GoValue.int 2), ("type", GoValue.string "run")]
      (by
        intro kv hkv
        simp only [List.mem_cons, List.mem_singleton, List.not_mem_nil, or_false] at hkv
        rcases hkv with rfl | rfl
        · exact Or.inl ⟨2, rfl⟩
        · exact Or.inr (Or.inl ⟨"run", rfl⟩))
      (by decide) (by decide)
  refine ⟨vals, hret, hperm _ (List.Perm.swap _ _ _), htok, ?_, ?_⟩
  · exact hint "page" 2 (by simp)
  · exact hstr "type" "run" (by simp)

/-! ## The session manager: `Login` and `AskAccessToken` -/

/-- C8. When the login request completes (the `Post` returns a response) and the
final redirect URL `u` survives the round trip through its text with its raw query
`q` unchanged: if `q` contains `error=`, `Login` returns the error
`errors.New("Login return: " + q)`, whose message contains `q`; if `q` does not
contain `error=`, an empty `q` included, `Login` returns no error. With an absent
URL `Login` returns no error. -/
theorem Login_redirect (reparse : URL → Except GoError URL) (resp : Response) :
    (∀ u url, resp.RequestURL = some u → reparse u = Except.ok url →
      url.RawQuery = u.RawQuery →
      (bytesContains u.RawQuery.data "error=".data = true →
        Login reparse (Except.ok resp)
          = some (GoError.errorsNew ("Login return: " ++ u.RawQuery)) ∧
        bytesContains ("Login return: " ++ u.RawQuery).data u.RawQuery.data = true) ∧
      (bytesContains u.RawQuery.data "error=".data = false →
        Login reparse (Except.ok resp) = none)) ∧
    (resp.RequestURL = none → Login reparse (Except.ok resp) = none) := by
  refine ⟨?_, ?_⟩
  · intro u url hu hparse hq
    refine ⟨?_, ?_⟩
    · intro hmark
      refine ⟨?_, ?_⟩
      · simp [Login, hu, hparse, hq, hmark]
      · rw [String.data_append]
        exact bytesContains_append_right _ _
    · intro hmark
      simp [Login, hu, hparse, hq, hmark]
  · intro hu
    simp [Login, hu]

/-- Witness of C8: `https://developer.nike.com/categories?error=invalid_credentials`
fails with the query in the message, `https://developer.nike.com/categories`
succeeds, and so does a response without URL. -/
theorem Login_redirect_witness :
    Login Except.ok (Except.ok
        { Body := Except.ok "",
          RequestURL := some
            { Scheme := "https", Host := "developer.nike.com", Path := "/categories",
              RawQuery := "error=invalid_credentials" } })
      = some (GoError.errorsNew "Login return: error=invalid_credentials") ∧
    Login Except.ok (Except.ok
        { Body := Except.ok "",
          RequestURL := some
            { Scheme := "https", Host := "developer.nike.com", Path := "/categories",
              RawQuery := "" } }) = none ∧
    Login Except.ok (Except.ok { Body := Except.ok "", RequestURL := none }) = none :=
  ⟨(((Login_redirect Except.ok
        { Body := Except.ok "",
          RequestURL := some
            { Scheme := "https", Host := "developer.nike.com", Path := "/categories",
              RawQuery := "error=invalid_credentials" } }).1
      _ _ rfl rfl rfl).1 (by decide)).1,
   ((Login_redirect Except.ok
        { Body := Except.ok "",
          RequestURL := some
            { Scheme := "https", Host := "developer.nike.com", Path := "/categories",
              RawQuery := "" } }).1
      _ _ rfl rfl rfl).2 (by decide),
   (Login_redirect Except.ok { Body := Except.ok "", RequestURL := none }).2 rfl⟩

/-- A transport failure of the login request, and a final URL that does not parse
back, are returned as they are. -/
theorem Login_failure (reparse : URL → Except GoError URL) :
    (∀ err, Login reparse (Except.error err) = some err) ∧
    (∀ resp u err, resp.RequestURL = some u → reparse u = Except.error err →
      Login reparse (Except.ok resp) = some err) := by
  refine ⟨fun err => rfl, ?_⟩
  intro resp u err hu hparse
  simp [Login, hu, hparse]

/-- A transport failure of the token request is returned with the empty string,
and the client keeps its token. -/
theorem AskAccessToken_transport_failure (self : Client) (err : GoError) :
    AskAccessToken self (Except.error err) = (Run.ret ("", some err), self) :=
  rfl

/-- What `AskAccessToken` does, by the outcome of the decoder on a map
destination: success with a string `auth_token` stores and returns it; a decoder
error is returned with the empty string; success without a string `auth_token`
gives the "Can't get access token" error; the last two leave the client as it
was. A panic of the decoder aborts `AskAccessToken` as well. -/
theorem AskAccessToken_by_decoder (self : Client) (resp : Response) :
    (∀ v, (parseJsonResponse decodeMap resp GoMap.empty).1 = Run.ret none →
      (parseJsonResponse decodeMap resp GoMap.empty).2 "auth_token" = some (JValue.str v) →
      AskAccessToken self (Except.ok resp)
        = (Run.ret (v, none), { self with AccessToken := v })) ∧
    (∀ err, (parseJsonResponse decodeMap resp GoMap.empty).1 = Run.ret (some err) →
      AskAccessToken self (Except.ok resp) = (Run.ret ("", some err), self)) ∧
    ((parseJsonResponse decodeMap resp GoMap.empty).1 = Run.ret none →
      (∀ v, (parseJsonResponse decodeMap resp GoMap.empty).2 "auth_token"
        ≠ some (JValue.str v)) →
      AskAccessToken self (Except.ok resp)
        = (Run.ret ("", some (GoError.errorsNew "Can't get access token")), self)) ∧
    ((parseJsonResponse decodeMap resp GoMap.empty).1 = Run.panic →
      AskAccessToken self (Except.ok resp) = (Run.panic, self)) := by
  refine ⟨?_, ?_, ?_, ?_⟩
  · intro v h1 h2
    simp [AskAccessToken, h1, h2]
  · intro err h1
    simp [AskAccessToken, h1]
  · intro h1 h2
    simp only [AskAccessToken, h1]
  · intro h1
    simp [AskAccessToken, h1]

/-- The two outcomes of the spec on concrete bodies: `{"auth_token": "abc123"}`
sets and returns the token, `{"foo": "bar"}` fails and leaves the token unset. -/
theorem AskAccessToken_examples :
    AskAccessToken { AccessToken := "" }
        (Except.ok (Response.ofBody "\x7b\"auth_token\": \"abc123\"\x7d"))
      = (Run.ret ("abc123", none), { AccessToken := "abc123" }) ∧
    AskAccessToken { AccessToken := "" } (Except.ok (Response.ofBody "\x7b\"foo\": \"bar\"\x7d"))
      = (Run.ret ("", some (GoError.errorsNew "Can't get access token")),
          { AccessToken := "" }) := by
  refine ⟨by decide, by decide⟩

/-- C7 (failing input). On the token-endpoint body `{"error": 5}`, for every
client state, `AskAccessToken` neither returns a token nor returns the empty
string with an error: the decoder panics at `val.(string)` and the call aborts
(the client keeps its token). -/
theorem AskAccessToken_error_number_panics (self : Client) :
    AskAccessToken self (Except.ok (Response.ofBody "\x7b\"error\": 5\x7d")) = (Run.panic, self) ∧
    ∀ v err, AskAccessToken self (Except.ok (Response.ofBody "\x7b\"error\": 5\x7d"))
      ≠ (Run.ret (v, err), self) := by
  have h : AskAccessToken self (Except.ok (Response.ofBody "\x7b\"error\": 5\x7d"))
      = (Run.panic, self) :=
    (AskAccessToken_by_decoder self (Response.ofBody "\x7b\"error\": 5\x7d")).2.2.2 (by decide)
  refine ⟨h, fun v err => ?_⟩
  rw [h]
  simp

end NikePlus
